import Mathlib

/-!
Verification development for the RAG (retrieval-augmented generation) pipeline
of the onboarding-wizard repository.

The TypeScript sources are shallowly embedded as Lean definitions:

* `DocumentProcessorService.createDocumentChunks`, `preprocessContent`
  (backend/src/services/document-processor.service.ts);
* `InMemoryVectorStore.cosineSimilarity`, `findSimilar`
  (backend/src/services/vector-store.service.ts);
* `RAGServiceImpl.query`, `calculateConfidence`, `formatResponseForFrontend`,
  `createDocumentSource`, `createExcerpt`, `initialize` (rag.service.ts);
* `OnboardingDataService.loadOnboardingDocumentation` (onboarding-data.service.ts).

Conventions: JavaScript strings are `List Char` (wrapped into `String` at API
boundaries); JavaScript numbers appearing as array indices are `Nat`/`Int`
(`String.lastIndexOf` returns `-1`, hence `Int` where the source can);
floating-point arithmetic on similarity scores is modelled by exact real
arithmetic (`ℝ`).  Network calls (embedding and text generation) are oracles
passed in as function arguments returning `Except`.  Scanning functions that
model JavaScript `String.replace` with a global regex take a fuel argument
(structural recursion) so that they compute; the fuel `length + 1` is always
sufficient because every step consumes at least one character of the input.
-/

set_option maxRecDepth 100000

/-! ### Chunker (DocumentProcessorService.createDocumentChunks) -/

/-- `chunkSize` constant of `DocumentProcessorService` (800). -/
def chunkSize : Nat := 800

/-- `chunkOverlap` constant of `DocumentProcessorService` (50). -/
def chunkOverlap : Nat := 50

/-- JavaScript `str.lastIndexOf(c)`: index of the last occurrence, `-1` if absent. -/
def lastIndexOfC (l : List Char) (c : Char) : Int :=
  match l.reverse.findIdx? (fun x => x = c) with
  | some i => (l.length : Int) - 1 - i
  | none => -1

/-- JavaScript `content.slice(a, b)` for `0 ≤ a ≤ b` (as used by the chunker). -/
def jsSlice (l : List Char) (a b : Nat) : List Char :=
  (l.take b).drop a

/-- The ECMAScript whitespace class (`\s`, and the class trimmed by `String.trim`). -/
def isJsSpace (c : Char) : Bool :=
  c = ' ' ∨ c = '\t' ∨ c = '\n' ∨ c = '\r' ∨ c = '\x0b' ∨ c = '\x0c' ∨
  c = '\xa0' ∨ c.val = 0xFEFF ∨ (0x2000 ≤ c.val ∧ c.val ≤ 0x200A) ∨
  c.val = 0x2028 ∨ c.val = 0x2029 ∨ c.val = 0x202F ∨ c.val = 0x205F ∨
  c.val = 0x3000 ∨ c.val = 0x1680

/-- JavaScript `String.trim`. -/
def jsTrim (l : List Char) : List Char :=
  ((l.dropWhile isJsSpace).reverse.dropWhile isJsSpace).reverse

/-- One chunk produced by the chunking loop: the recorded span and the raw
(untrimmed) `chunkContent` slice.  `endIndex = startIndex + raw.length`
exactly as in the source (`currentStartIndex + chunkContent.length`). -/
structure ChunkSpan where
  startIndex : Nat
  endIndex : Nat
  raw : List Char
  deriving Repr, DecidableEq

/-- `endIndex` of the window for the iteration starting at `start`:
`Math.min(startIndex + this.chunkSize, content.length)`. -/
def windowEnd (content : List Char) (start : Nat) : Nat :=
  min (start + chunkSize) content.length

/-- The raw window `content.slice(startIndex, endIndex)`. -/
def rawWindow (content : List Char) (start : Nat) : List Char :=
  jsSlice content start (windowEnd content start)

/-- The `chunkContent` of the iteration starting at `start`, after the
sentence-boundary adjustment.  `breakPoint` is an index **relative to the
window** (result of `chunkContent.lastIndexOf`), while the guard compares it
with `startIndex + this.chunkSize * 0.5` (note `800 * 0.5 = 400` exactly in
floating point); the comparison mixes the relative index with the absolute
start position, faithfully reproduced here. -/
def chunkContentAt (content : List Char) (start : Nat) : List Char :=
  let endIndex := windowEnd content start
  let w := rawWindow content start
  if endIndex < content.length then
    let breakPoint := max (lastIndexOfC w '.') (lastIndexOfC w '\n')
    if breakPoint > (start : Int) + 400 then
      jsSlice content start (start + breakPoint.toNat + 1)
    else w
  else w

/-- `startIndex + chunkContent.length - this.chunkOverlap`, clamped below by
`startIndex + 1` (`Math.max(nextStartIndex, startIndex + 1)`), computed in
`Int` as JavaScript does and converted back (the max is always positive). -/
def nextStartAt (content : List Char) (start : Nat) : Nat :=
  (max ((start : Int) + (chunkContentAt content start).length - (chunkOverlap : Int))
    ((start : Int) + 1)).toNat

/-- The `while (startIndex < content.length)` loop of `createDocumentChunks`,
collecting the spans (the per-chunk embedding call is factored out; see
`createDocumentChunksFull`). -/
def chunkLoop (content : List Char) (start : Nat) : List ChunkSpan :=
  if _h : start < content.length then
    ⟨start, start + (chunkContentAt content start).length, chunkContentAt content start⟩ ::
      chunkLoop content (nextStartAt content start)
  else []
  termination_by content.length - start
  decreasing_by
    have h1 : start + 1 ≤ nextStartAt content start := by
      have : ((start : Int) + 1) ≤
          max ((start : Int) + (chunkContentAt content start).length - (chunkOverlap : Int))
            ((start : Int) + 1) := le_max_right _ _
      have h2 : ((start + 1 : Nat) : Int) ≤
          max ((start : Int) + (chunkContentAt content start).length - (chunkOverlap : Int))
            ((start : Int) + 1) := by push_cast; omega
      calc start + 1 = ((start + 1 : Nat) : Int).toNat := by simp
        _ ≤ _ := Int.toNat_le_toNat h2
    omega

/-- Span-level `createDocumentChunks`: the single-chunk branch for
`content.length <= this.chunkSize`, otherwise the chunking loop from 0. -/
def createDocumentChunkSpans (content : List Char) : List ChunkSpan :=
  if content.length ≤ chunkSize then [⟨0, content.length, content⟩]
  else chunkLoop content 0

/-! ### Document model and full chunk records -/

/-- The closed `OnboardingSectionType` enum. -/
inductive Section where
  | profile
  | personal_info
  | payment
  | tours
  | calendar
  | quiz
  deriving Repr, DecidableEq

/-- String value of an `OnboardingSectionType` member. -/
def sectionToString : Section → String
  | .profile => "PROFILE"
  | .personal_info => "PERSONAL_INFO"
  | .payment => "PAYMENT"
  | .tours => "TOURS"
  | .calendar => "CALENDAR"
  | .quiz => "QUIZ"

/-- `Document` of types/rag.ts (metadata omitted: an open key-value map that no
modelled operation inspects).  The `section` field is called `sectionTag`
because `section` is a Lean keyword. -/
structure Document where
  id : String
  title : String
  content : String
  sectionTag : Section
  deriving Repr

/-- `DocumentChunk` of types/rag.ts. -/
structure DocumentChunk where
  id : String
  content : List Char
  embedding : List ℝ
  documentId : String
  startIndex : Nat
  endIndex : Nat

/-- `ProcessedDocument` of types/rag.ts. -/
structure ProcessedDocument where
  id : String
  title : String
  content : String
  sectionTag : Section
  embedding : List ℝ
  chunks : List DocumentChunk

/-- Full `createDocumentChunks`, including the per-chunk embedding calls
(`embed` oracle) and the `chunkContent.trim()` applied to the recorded content
in the multi-chunk branch only.  In both branches the embedding is computed
from the untrimmed `chunkContent`, exactly as in the source. -/
def createDocumentChunksFull (embed : List Char → List ℝ) (docId : String)
    (content : List Char) : List DocumentChunk :=
  if content.length ≤ chunkSize then
    [{ id := docId ++ "_chunk_0", content := content, embedding := embed content,
       documentId := docId, startIndex := 0, endIndex := content.length }]
  else
    (chunkLoop content 0).enum.map fun p =>
      { id := docId ++ "_chunk_" ++ toString p.1, content := jsTrim p.2.raw,
        embedding := embed p.2.raw, documentId := docId,
        startIndex := p.2.startIndex, endIndex := p.2.endIndex }

/-- `DocumentProcessorService.processDocument` (modulo the embedding network
call, supplied as the oracle `embed`): embeds `title + "\n\n" + content` and
chunks the **raw** document content.  Note that `preprocessContent` is *not*
invoked anywhere in this pipeline. -/
def processDocument (embed : List Char → List ℝ) (d : Document) : ProcessedDocument :=
  { id := d.id, title := d.title, content := d.content, sectionTag := d.sectionTag,
    embedding := embed (d.title ++ "\n\n" ++ d.content).data,
    chunks := createDocumentChunksFull embed d.id d.content.data }

/-! ### preprocessContent (DocumentProcessorService.preprocessContent) -/

/-- `.replace(/\r\n/g, '\n')`: non-overlapping left-to-right replacement. -/
def replaceCRLF : List Char → List Char
  | '\r' :: '\n' :: rest => '\n' :: replaceCRLF rest
  | c :: rest => c :: replaceCRLF rest
  | [] => []

/-- `.replace(/\n{3,}/g, '\n\n')`: every maximal run of 3 or more newlines
becomes two newlines.  Fueled scanner; `fuel = length + 1` always suffices. -/
def collapseNewlines3F : Nat → List Char → List Char
  | 0, l => l
  | fuel + 1, l =>
    match l with
    | [] => []
    | '\n' :: '\n' :: '\n' :: rest =>
      '\n' :: '\n' :: collapseNewlines3F fuel (rest.dropWhile (fun c => c = '\n'))
    | c :: rest => c :: collapseNewlines3F fuel rest

/-- `.replace(/[ \t]+/g, ' ')`: every maximal run of spaces/tabs becomes a
single space (the single space is emitted at the end of the run). -/
def collapseSpaceTab : List Char → List Char
  | [] => []
  | [c] => if c = ' ' ∨ c = '\t' then [' '] else [c]
  | a :: b :: rest =>
    if a = ' ' ∨ a = '\t' then
      if b = ' ' ∨ b = '\t' then collapseSpaceTab (b :: rest)
      else ' ' :: collapseSpaceTab (b :: rest)
    else a :: collapseSpaceTab (b :: rest)

/-- `DocumentProcessorService.preprocessContent`: the four chained operations. -/
def preprocessContent (l : List Char) : List Char :=
  jsTrim (collapseSpaceTab (collapseNewlines3F ((replaceCRLF l).length + 1) (replaceCRLF l)))

/-- String-level wrapper of `preprocessContent`. -/
def preprocessContentS (s : String) : String :=
  ⟨preprocessContent s.data⟩

/-! ### formatResponseForFrontend (RAGServiceImpl.formatResponseForFrontend)

Each `.replace(/re/g, repl)` of the source is one scanner below, implementing
the ECMAScript leftmost, non-overlapping global-replace discipline: scan left
to right; at each position try the pattern; on failure emit one character and
advance one position; on success emit the replacement and resume right after
the match. -/

/-- The backtick character (written via its code point). -/
def btick : Char := Char.ofNat 96

/-- Head of a list is a JS whitespace character. -/
def headIsSpace : List Char → Bool
  | c :: _ => isJsSpace c
  | [] => false

/-- `.replace(/^#{1,6}\s+(.*)$/gm, '$1')`: at a line start, 1-6 hashes followed
by at least one whitespace character (the greedy `\s+` may cross newlines) and
then the remainder of a line; the match is replaced by that line remainder. -/
def stripHeadersF : Nat → Bool → List Char → List Char
  | 0, _, l => l
  | _ + 1, _, [] => []
  | fuel + 1, atStart, c :: rest =>
    if atStart ∧ c = '#' then
      let k := ((c :: rest).takeWhile (fun x => x = '#')).length
      let afterH := (c :: rest).drop k
      if k ≤ 6 ∧ headIsSpace afterH then
        let afterWs := afterH.dropWhile isJsSpace
        let lineContent := afterWs.takeWhile (fun x => x ≠ '\n')
        lineContent ++ stripHeadersF fuel false (afterWs.drop lineContent.length)
      else c :: stripHeadersF fuel false rest
    else c :: stripHeadersF fuel (c = '\n') rest

/-- Closing scan for `xx(.*?)xx` (with `x = ch`): returns the (lazy-minimal)
inner text and the suffix after the closing pair; `.` does not match `\n`. -/
def findCloseD (ch : Char) : List Char → Option (List Char × List Char)
  | [] => none
  | a :: r =>
    if a = ch ∧ r.head? = some ch then some ([], r.drop 1)
    else if a = '\n' then none
    else
      match findCloseD ch r with
      | some p => some (a :: p.1, p.2)
      | none => none

/-- `.replace(/\*\*(.*?)\*\*/g, '$1')` (and `__` for `ch = '_'`). -/
def stripDoubleF (ch : Char) : Nat → List Char → List Char
  | 0, l => l
  | _ + 1, [] => []
  | fuel + 1, a :: rest =>
    if a = ch ∧ rest.head? = some ch then
      match findCloseD ch (rest.drop 1) with
      | some p => p.1 ++ stripDoubleF ch fuel p.2
      | none => a :: stripDoubleF ch fuel rest
    else a :: stripDoubleF ch fuel rest

/-- Closing scan for `x(.*?)x`: inner text up to the next `ch` on the same line. -/
def findCloseS (ch : Char) : List Char → Option (List Char × List Char)
  | [] => none
  | a :: r =>
    if a = ch then some ([], r)
    else if a = '\n' then none
    else
      match findCloseS ch r with
      | some p => some (a :: p.1, p.2)
      | none => none

/-- `.replace(/\*(.*?)\*/g, '$1')` (and `_` for `ch = '_'`). -/
def stripSingleF (ch : Char) : Nat → List Char → List Char
  | 0, l => l
  | _ + 1, [] => []
  | fuel + 1, a :: rest =>
    if a = ch then
      match findCloseS ch rest with
      | some p => p.1 ++ stripSingleF ch fuel p.2
      | none => a :: stripSingleF ch fuel rest
    else a :: stripSingleF ch fuel rest

/-- Scan for the earliest closing triple backtick; returns the suffix after it. -/
def findCloseTriple : List Char → Option (List Char)
  | a :: b :: c :: r =>
    if a = btick ∧ b = btick ∧ c = btick then some r
    else findCloseTriple (b :: c :: r)
  | _ => none

/-- Code-fence removal (triple backticks, lazy `[\s\S]*?` inner, replaced by
the empty string). -/
def stripCodeBlocksF : Nat → List Char → List Char
  | 0, l => l
  | _ + 1, [] => []
  | fuel + 1, a :: rest =>
    if a = btick ∧ rest.head? = some btick ∧ (rest.drop 1).head? = some btick then
      match findCloseTriple (rest.drop 2) with
      | some after => stripCodeBlocksF fuel after
      | none => a :: stripCodeBlocksF fuel rest
    else a :: stripCodeBlocksF fuel rest

/-- Inline-code removal (single backtick pair with nonempty inner, replaced by
the inner text). -/
def stripInlineCodeF : Nat → List Char → List Char
  | 0, l => l
  | _ + 1, [] => []
  | fuel + 1, a :: rest =>
    if a = btick then
      let content := rest.takeWhile (fun x => x ≠ btick)
      if 1 ≤ content.length ∧ (rest.drop content.length).head? = some btick then
        content ++ stripInlineCodeF fuel (rest.drop (content.length + 1))
      else a :: stripInlineCodeF fuel rest
    else a :: stripInlineCodeF fuel rest

/-- `.replace(/\[([^\]]+)\]\([^)]+\)/g, '$1')`: markdown links become their text. -/
def stripLinksF : Nat → List Char → List Char
  | 0, l => l
  | _ + 1, [] => []
  | fuel + 1, a :: rest =>
    if a = '[' then
      let t := rest.takeWhile (fun x => x ≠ ']')
      let r1 := rest.drop t.length
      if 1 ≤ t.length ∧ r1.head? = some ']' ∧ (r1.drop 1).head? = some '(' then
        let r2 := r1.drop 2
        let u := r2.takeWhile (fun x => x ≠ ')')
        if 1 ≤ u.length ∧ (r2.drop u.length).head? = some ')' then
          t ++ stripLinksF fuel (r2.drop (u.length + 1))
        else a :: stripLinksF fuel rest
      else a :: stripLinksF fuel rest
    else a :: stripLinksF fuel rest

/-- `.replace(/^[-*_]{3,}$/gm, '')`: a full line of three or more rule
characters is removed. -/
def stripHrF : Nat → Bool → List Char → List Char
  | 0, _, l => l
  | _ + 1, _, [] => []
  | fuel + 1, atStart, c :: rest =>
    if atStart ∧ (c = '-' ∨ c = '*' ∨ c = '_') then
      let run := ((c :: rest).takeWhile (fun x => x = '-' ∨ x = '*' ∨ x = '_'))
      let afterR := (c :: rest).drop run.length
      if 3 ≤ run.length ∧ (afterR.head? = none ∨ afterR.head? = some '\n') then
        stripHrF fuel false afterR
      else c :: stripHrF fuel false rest
    else c :: stripHrF fuel (c = '\n') rest

/-- `.replace(/(\n)(\d+\.)/g, '\n\n$2')`: blank line before numbered items. -/
def spaceNumberedF : Nat → List Char → List Char
  | 0, l => l
  | _ + 1, [] => []
  | fuel + 1, a :: rest =>
    if a = '\n' then
      let ds := rest.takeWhile Char.isDigit
      if 1 ≤ ds.length ∧ (rest.drop ds.length).head? = some '.' then
        '\n' :: '\n' :: (ds ++ '.' :: spaceNumberedF fuel (rest.drop (ds.length + 1)))
      else a :: spaceNumberedF fuel rest
    else a :: spaceNumberedF fuel rest

/-- `.replace(/(\n)(-\s)/g, '\n\n$2')`: blank line before bullet items. -/
def spaceBullet : List Char → List Char
  | '\n' :: '-' :: c :: rest =>
    if isJsSpace c then '\n' :: '\n' :: '-' :: c :: spaceBullet rest
    else '\n' :: spaceBullet ('-' :: c :: rest)
  | c :: rest => c :: spaceBullet rest
  | [] => []

/-- `if (formatted && !formatted.match(/[.!?]$/)) formatted += '.'`. -/
def ensurePunct (l : List Char) : List Char :=
  match l.getLast? with
  | none => l
  | some c => if c = '.' ∨ c = '!' ∨ c = '?' then l else l ++ ['.']

/-- `.replace(/[*_#`]/g, '')`: final character-level markdown strip. -/
def stripMdChars (l : List Char) : List Char :=
  l.filter (fun c => ¬(c = '*' ∨ c = '_' ∨ c = '#' ∨ c = btick))

/-- `.replace(/  +/g, ' ')`: runs of two or more spaces become one space. -/
def collapseDoubleSpaces : List Char → List Char
  | [] => []
  | [c] => [c]
  | a :: b :: rest =>
    if a = ' ' ∧ b = ' ' then collapseDoubleSpaces (b :: rest)
    else a :: collapseDoubleSpaces (b :: rest)

/-- Index (into the whitespace run that follows an opening newline) of the
last newline of that run: where the backtracking greedy `\s*` of
`/\n\s*\n/` places the closing `\n`. -/
def nlCutIndex (rest : List Char) : Nat :=
  (rest.takeWhile isJsSpace).length - 1 -
    (rest.takeWhile isJsSpace).reverse.findIdx (fun c => c = '\n')

/-- `.replace(/\n\s*\n/g, '\n\n')`: a newline, any whitespace, and a newline
collapse to a blank line.  The greedy `\s*` backtracks minimally, so the match
ends at the **last** newline inside the maximal whitespace run that follows
the opening newline (`nlCutIndex`). -/
def collapseNlWsNlF : Nat → List Char → List Char
  | 0, l => l
  | _ + 1, [] => []
  | fuel + 1, a :: rest =>
    if a = '\n' then
      if '\n' ∈ rest.takeWhile isJsSpace then
        '\n' :: '\n' :: collapseNlWsNlF fuel (rest.drop (nlCutIndex rest + 1))
      else a :: collapseNlWsNlF fuel rest
    else a :: collapseNlWsNlF fuel rest

/-- The first fourteen steps of `formatResponseForFrontend`: the markdown
replacement chain of the first `.replace` cascade, ending with `.trim()`. -/
def formatChain1 (raw : List Char) : List Char :=
  let s1 := stripHeadersF (raw.length + 1) true raw
  let s2 := stripDoubleF '*' (s1.length + 1) s1
  let s3 := stripDoubleF '_' (s2.length + 1) s2
  let s4 := stripSingleF '*' (s3.length + 1) s3
  let s5 := stripSingleF '_' (s4.length + 1) s4
  let s6 := stripCodeBlocksF (s5.length + 1) s5
  let s7 := stripInlineCodeF (s6.length + 1) s6
  let s8 := stripLinksF (s7.length + 1) s7
  let s9 := stripHrF (s8.length + 1) true s8
  let s10 := collapseNewlines3F (s9.length + 1) s9
  let s11 := spaceNumberedF (s10.length + 1) s10
  let s12 := spaceBullet s11
  let s13 := collapseSpaceTab s12
  jsTrim s13

/-- The tail of `formatResponseForFrontend`: the terminal-punctuation fix-up
and the final cleanup (`[*_#`]` strip, double-space collapse, blank-line
normalization). -/
def formatFinal (x : List Char) : List Char :=
  let s15 := ensurePunct x
  let s16 := stripMdChars s15
  let s17 := collapseDoubleSpaces s16
  collapseNlWsNlF (s17.length + 1) s17

/-- `RAGServiceImpl.formatResponseForFrontend`: the full replacement chain, the
terminal-punctuation fix-up, and the final cleanup, in source order. -/
def formatResponseForFrontend (raw : List Char) : List Char :=
  formatFinal (formatChain1 raw)

/-- String-level wrapper of `formatResponseForFrontend`. -/
def formatResponseForFrontendS (s : String) : String :=
  ⟨formatResponseForFrontend s.data⟩

/-- Decidable scanner for "contains a markdown link": a substring
`[t](u)` with `t` nonempty and free of `]`, `u` nonempty and free of `)`
(the pattern `\[([^\]]+)\]\([^)]+\)`). -/
def containsMdLink : List Char → Bool
  | [] => false
  | a :: rest =>
    (a = '[' ∧
      (let t := rest.takeWhile (fun x => x ≠ ']')
       let r1 := rest.drop t.length
       1 ≤ t.length ∧ r1.head? = some ']' ∧ (r1.drop 1).head? = some '(' ∧
         (let r2 := r1.drop 2
          let u := r2.takeWhile (fun x => x ≠ ')')
          1 ≤ u.length ∧ (r2.drop u.length).head? = some ')'))) ∨
    containsMdLink rest

/-! ### Vector store (InMemoryVectorStore) -/

/-- Dot product of two equal-length embedding vectors (the accumulation loop of
`cosineSimilarity`; `?? 0` is a no-op on dense arrays of equal length). -/
def dotProduct (a b : List ℝ) : ℝ :=
  (List.zipWith (fun x y => x * y) a b).sum

/-- The accumulated `magnitudeA`/`magnitudeB` before `Math.sqrt`. -/
def sumSquares (a : List ℝ) : ℝ := dotProduct a a

/-- The error message thrown on a dimension mismatch. -/
def dimMismatchMsg : String :=
  "Vectors must have the same length for cosine similarity calculation"

open Classical in
/-- `InMemoryVectorStore.cosineSimilarity`: throws on a length mismatch,
returns 0 if either magnitude is zero, else the normalized dot product. -/
noncomputable def cosineSimilarity (a b : List ℝ) : Except String ℝ :=
  if a.length ≠ b.length then .error dimMismatchMsg
  else
    let magA := Real.sqrt (sumSquares a)
    let magB := Real.sqrt (sumSquares b)
    if magA = 0 ∨ magB = 0 then .ok 0
    else .ok (dotProduct a b / (magA * magB))

/-- `SimilarityResult` of types/rag.ts (`chunk` optional). -/
structure SimilarityResult where
  document : ProcessedDocument
  chunk : Option DocumentChunk
  similarity : ℝ

/-- Similarity results contributed by one stored document: the whole-document
similarity followed by one result per chunk, in order. -/
noncomputable def docResults (q : List ℝ) (doc : ProcessedDocument) :
    Except String (List SimilarityResult) := do
  let ds ← cosineSimilarity q doc.embedding
  let cs ← doc.chunks.mapM (fun ch => do
    let s ← cosineSimilarity q ch.embedding
    pure (⟨doc, some ch, s⟩ : SimilarityResult))
  pure (⟨doc, none, ds⟩ :: cs)

/-- All similarity results over the store (documents in insertion order). -/
noncomputable def allResults (store : List ProcessedDocument) (q : List ℝ) :
    Except String (List SimilarityResult) := do
  let rss ← store.mapM (docResults q)
  pure rss.flatten

open Classical in
/-- `InMemoryVectorStore.findSimilar`: every document and chunk similarity,
sorted by similarity descending (stable), truncated to `topK`. -/
noncomputable def findSimilar (store : List ProcessedDocument) (q : List ℝ)
    (topK : Nat) : Except String (List SimilarityResult) := do
  let rs ← allResults store q
  pure ((rs.mergeSort (fun a b => decide (b.similarity ≤ a.similarity))).take topK)

/-! ### RAG service (RAGServiceImpl) -/

/-- `maxSources` constant of `RAGServiceImpl` (5). -/
def maxSources : Nat := 5

/-- `similarityThreshold` constant of `RAGServiceImpl` (0.3). -/
noncomputable def similarityThreshold : ℝ := 0.3

/-- `DocumentSource` of types/rag.ts. -/
structure DocumentSource where
  id : String
  title : String
  excerpt : List Char
  sectionTag : Section
  relevanceScore : ℝ

/-- `RAGResponse` of types/rag.ts. -/
structure RAGResponse where
  answer : String
  sources : List DocumentSource
  confidence : ℝ

/-- JavaScript `str.substring(0, n)`. -/
def jsSubstringTo (l : List Char) (n : Nat) : List Char := l.take n

/-- `RAGServiceImpl.createExcerpt`: truncate to `maxLength` characters, backing
up to the last space when that space sits beyond 80% of the limit (the source
compares `lastSpace > maxLength * 0.8`; for the only call site,
`maxLength = 200`, the float product is exactly 160, and the comparison is
rendered exactly by cross-multiplication). -/
def createExcerpt (content : List Char) (maxLength : Nat) : List Char :=
  if content.length ≤ maxLength then content
  else
    let truncated := jsSubstringTo content maxLength
    let lastSpace := lastIndexOfC truncated ' '
    if lastSpace * 5 > (maxLength : Int) * 4 then
      jsSubstringTo truncated lastSpace.toNat ++ "...".data
    else truncated ++ "...".data

/-- `RAGServiceImpl.createDocumentSource`: chunk fields win when a chunk is
present; `relevanceScore` is the raw similarity. -/
def createDocumentSource (document : ProcessedDocument) (chunk : Option DocumentChunk)
    (similarity : ℝ) : DocumentSource :=
  let content := match chunk with
    | some ch => ch.content
    | none => document.content.data
  { id := match chunk with
      | some ch => ch.id
      | none => document.id,
    title := document.title,
    excerpt := createExcerpt content 200,
    sectionTag := document.sectionTag,
    relevanceScore := similarity }

open Classical in
/-- `RAGServiceImpl.calculateConfidence`: rank-weighted average of the
relevance scores (weights `1/(rank+1)`), scaled by 1.2 and clamped to 1, the
3-or-more-sources boost by 1.1 clamped to 1, and rounding to 2 decimals
(`Math.round(x*100)/100`; `Math.round` is `⌊x + 1/2⌋`, Mathlib `round`). -/
noncomputable def calculateConfidence (sources : List DocumentSource) : ℝ :=
  if sources.length = 0 then 0
  else
    let weightedSum := sources.enum.foldl
      (fun acc p => acc + p.2.relevanceScore * (1 / ((p.1 : ℝ) + 1))) 0
    let totalWeight := sources.enum.foldl
      (fun acc p => acc + 1 / ((p.1 : ℝ) + 1)) 0
    let averageRelevance := weightedSum / totalWeight
    let confidence := min (averageRelevance * 1.2) 1
    let confidence2 := if 3 ≤ sources.length then min (confidence * 1.1) 1 else confidence
    ((round (confidence2 * 100) : ℤ) : ℝ) / 100

open Classical in
/-- The confidence formula exactly as the specification words it: weight each
surviving source by `1/(rank+1)` (rank 0-based), take the weighted-average
similarity, multiply by 1.2 and clamp to 1.0; if 3 or more sources survived,
additionally multiply by 1.1 and clamp to 1.0 again; round to 2 decimals. -/
noncomputable def specConfidence (scores : List ℝ) : ℝ :=
  let ws := (scores.enum.map (fun p => p.2 * (1 / ((p.1 : ℝ) + 1)))).sum
  let tw := (scores.enum.map (fun p => 1 / ((p.1 : ℝ) + 1))).sum
  let avg := ws / tw
  let c1 := min (avg * 1.2) 1
  let c2 := if 3 ≤ scores.length then min (c1 * 1.1) 1 else c1
  ((round (c2 * 100) : ℤ) : ℝ) / 100

/-- The fixed no-relevant-content answer of `RAGServiceImpl.query`. -/
def noInfoAnswer : String :=
  "I don\x27t have enough relevant information to answer that question. Could you please rephrase or ask about a specific onboarding section?"

/-- The `RAGResponse` returned when no source passes the similarity filter. -/
def noInfoResponse : RAGResponse :=
  { answer := noInfoAnswer, sources := [], confidence := 0 }

/-- The fallback answer returned when the generation call itself fails
(caught inside `generateContextualAnswer`). -/
def troubleAnswer : String :=
  "I\x27m having trouble generating a response right now. Please try again or contact support for assistance with your onboarding question."

/-- One line of the grounding context: `From <title> (<section>): <excerpt>`. -/
def sourceLine (s : DocumentSource) : String :=
  "From " ++ s.title ++ " (" ++ sectionToString s.sectionTag ++ "): " ++ String.mk s.excerpt

/-- The grounding prompt of `generateContextualAnswer` (the long literal is
abbreviated to its variable parts plus stable markers; the generation model is
an oracle, so only the prompt's dependence on its inputs matters here). -/
def systemPrompt (sources : List DocumentSource) (context : Option String)
    (question : String) : String :=
  "You are a helpful assistant for the ToursByLocals onboarding process."
    ++ " PROVIDED DOCUMENTATION CONTEXT:\n"
    ++ String.intercalate "\n\n" (sources.map sourceLine)
    ++ "\n\n"
    ++ (match context with
        | some c => "Additional context: " ++ c
        | none => "")
    ++ "\n\nUSER QUESTION: " ++ question

/-- The query text embedded by `query`: `context ? context + "\n\n" + question : question`. -/
def queryTextOf (context : Option String) (question : String) : String :=
  match context with
  | some c => c ++ "\n\n" ++ question
  | none => question

/-- `generateContextualAnswer` (modulo the network call): calls the generation
oracle on the grounding prompt and formats the output; a failed generation
call is caught and becomes the fixed trouble answer. -/
noncomputable def generateContextualAnswer (gen : String → Except String String)
    (question : String) (sources : List DocumentSource) (context : Option String) : String :=
  match gen (systemPrompt sources context question) with
  | .ok a => formatResponseForFrontendS a
  | .error _ => troubleAnswer

open Classical in
/-- The filter-and-project step of `query`: keep results at or above the
similarity threshold, keep the first `maxSources` of them, and convert each to
a `DocumentSource`. -/
noncomputable def relevantSourcesOf (similarResults : List SimilarityResult) :
    List DocumentSource :=
  ((similarResults.filter (fun r => similarityThreshold ≤ r.similarity)).take
      maxSources).map
    (fun r => createDocumentSource r.document r.chunk r.similarity)

open Classical in
/-- `RAGServiceImpl.query`.  `isInit` is the `isInitialized` flag, `store` the
vector-store contents, `embed`/`gen` the two network oracles.  The returned
`Bool` records whether the generation model was invoked.  Errors of the
embedding call or of `findSimilar` propagate through the outer catch, which
wraps them; a generation failure is caught inside `generateContextualAnswer`
and does not fail the query. -/
noncomputable def queryRAG (isInit : Bool) (store : List ProcessedDocument)
    (embed : String → Except String (List ℝ)) (gen : String → Except String String)
    (question : String) (context : Option String) :
    Except String (RAGResponse × Bool) :=
  if isInit = false then
    .error "RAG system not initialized. Call initialize() first."
  else
    (do
      let qe ← embed (queryTextOf context question)
      let similarResults ← findSimilar store qe (maxSources * 2)
      let relevantSources := relevantSourcesOf similarResults
      if relevantSources.isEmpty then
        pure (noInfoResponse, false)
      else
        pure ({ answer := generateContextualAnswer gen question relevantSources context,
                sources := relevantSources,
                confidence := calculateConfidence relevantSources }, true)
      : Except String (RAGResponse × Bool)).mapError
      (fun e => "Failed to process RAG query: " ++ e)

/-! ### Corpus loader (OnboardingDataService.loadOnboardingDocumentation)

JavaScript is single-threaded: the synchronous prefix of
`loadOnboardingDocumentation` (the `isLoaded` / `isLoading && loadingPromise`
checks and the flag updates) runs atomically between suspension points, so a
"concurrent" execution is an interleaving of atomic `call` steps and one
`resolve` step per in-flight load.  `resolve` combines the end of
`performLoad` (which sets `isLoaded`) with the initiating caller's `finally`
(which clears `isLoading`/`loadingPromise`). -/

/-- What a call to `loadOnboardingDocumentation` does before suspending. -/
inductive CallResult where
  | immediate
  | awaitsLoad (pid : Nat)
  deriving Repr, DecidableEq

/-- The loader's fields (`loadingPromise` identified by a fresh id). -/
structure LoaderState where
  isLoaded : Bool
  isLoading : Bool
  loadingPromise : Option Nat
  nextPid : Nat
  startedLoads : Nat
  deriving Repr, DecidableEq

/-- Initial loader state. -/
def initLoader : LoaderState :=
  { isLoaded := false, isLoading := false, loadingPromise := none,
    nextPid := 0, startedLoads := 0 }

/-- The "start loading" tail of `loadOnboardingDocumentation`: set `isLoading`,
create the `performLoad` promise and await it.  `startedLoads` counts
`performLoad` invocations. -/
def startLoad (s : LoaderState) : LoaderState × CallResult :=
  ({ isLoaded := s.isLoaded, isLoading := true, loadingPromise := some s.nextPid,
     nextPid := s.nextPid + 1, startedLoads := s.startedLoads + 1 },
   .awaitsLoad s.nextPid)

/-- The synchronous prefix of `loadOnboardingDocumentation`: return immediately
when loaded; await the shared promise when a load is in flight; otherwise
start a new load. -/
def callLoad (s : LoaderState) : LoaderState × CallResult :=
  if s.isLoaded then (s, .immediate)
  else
    match s.loadingPromise with
    | some p => if s.isLoading then (s, .awaitsLoad p) else startLoad s
    | none => startLoad s

/-- Resolution of the in-flight `performLoad`: on success `isLoaded := true`,
on failure `isLoaded := false`; in both cases the initiating caller's
`finally` clears `isLoading` and `loadingPromise`. -/
def resolveLoad (s : LoaderState) (success : Bool) : LoaderState :=
  { s with isLoaded := success, isLoading := false, loadingPromise := none }

/-- Run a burst of `n` concurrent calls, collecting each call's result. -/
def runCalls : Nat → LoaderState → LoaderState × List CallResult
  | 0, s => (s, [])
  | n + 1, s =>
    ((runCalls n (callLoad s).1).1, (callLoad s).2 :: (runCalls n (callLoad s).1).2)

/-! ### RAG service initialization (RAGServiceImpl.initialize) -/

/-- The mutable state touched by `RAGServiceImpl.initialize`: the service's
`isInitialized` flag and the vector store contents (insertion-ordered,
keyed by document id). -/
structure RAGServiceState where
  isInit : Bool
  store : List ProcessedDocument

/-- `InMemoryVectorStore.addDocument` (`Map.set`): replace in place when the id
exists, append otherwise. -/
def upsertDoc (store : List ProcessedDocument) (d : ProcessedDocument) :
    List ProcessedDocument :=
  if store.any (fun x => x.id = d.id) then
    store.map (fun x => if x.id = d.id then d else x)
  else store ++ [d]

/-- `RAGServiceImpl.initialize` (modulo the network calls inside document
processing, summarized by the `processed` argument: the outcome of
`documentProcessorService().processDocuments(documents)`).  The body first
clears the vector store, then processes, then inserts each processed document
and sets `isInitialized := true`; the `catch` wraps any error thrown after the
clear, leaving `isInitialized` untouched and the store cleared. -/
def initRAGService (st : RAGServiceState)
    (processed : Except String (List ProcessedDocument)) :
    RAGServiceState × Except String Unit :=
  match processed with
  | .error e =>
    ({ isInit := st.isInit, store := [] },
     .error ("Failed to initialize RAG system: " ++ e))
  | .ok pds =>
    ({ isInit := true, store := pds.foldl upsertDoc [] }, .ok ())

/-! ### Concrete sample data for witnesses and counterexamples -/

/-- A document chunk whose embedding is orthogonal to the sample query. -/
noncomputable def chunk1 : DocumentChunk :=
  { id := "d1_chunk_0", content := "c".data, embedding := [1, 0],
    documentId := "d1", startIndex := 0, endIndex := 1 }

/-- A stored document whose embeddings are orthogonal to the sample query. -/
noncomputable def pdoc1 : ProcessedDocument :=
  { id := "d1", title := "T", content := "c", sectionTag := .profile,
    embedding := [1, 0], chunks := [chunk1] }

/-- A one-document store. -/
noncomputable def store1 : List ProcessedDocument := [pdoc1]

/-- Embedding oracle returning a vector orthogonal to everything in `store1`. -/
noncomputable def embed1 : String → Except String (List ℝ) := fun _ => .ok [0, 1]

/-- Generation oracle (never reached in the `store1` scenarios). -/
def gen1 : String → Except String String := fun _ => .ok "x"

/-- A sample source list with a single relevance score 1/2. -/
noncomputable def sources2 : List DocumentSource :=
  [{ id := "d1", title := "T", excerpt := "c".data, sectionTag := .profile,
     relevanceScore := 1 / 2 }]

/-- C5 failing input: 1551 characters, all `a` except a period at index 1200.
The first window is `[0, 800)` (no period), so the second window starts at 750
and spans `[750, 1550)`; the period sits at window-relative index 450, inside
the last 50% of that window. -/
def content5 : List Char := List.replicate 1200 'a' ++ '.' :: List.replicate 350 'a'

/-- C6 counterexample document: raw content containing a double space. -/
def docC6 : Document :=
  { id := "d6", title := "T6", content := "a  b", sectionTag := .profile }

/-- A trivial embedding oracle for computable chunk evaluation. -/
def embed0 : List Char → List ℝ := fun _ => []

/-- Non-decreasing chunk start indices. -/
def startNondecreasing (l : List ChunkSpan) : Prop :=
  List.Chain' (fun a b => a.startIndex ≤ b.startIndex) l

/-- A short sample content (single-chunk branch). -/
def contentSmall : List Char := "ab".data

/-- A sample content one character over the chunk size (multi-chunk branch). -/
def contentBig : List Char := List.replicate 801 'a'

/-- C8 counterexample input: real markdown (`**b**`) plus a bracketed text, a
stray hash, and a parenthesized text. -/
def rawC8 : String := "**b** [a]#(u)"

/-! ### Theorems -/

/-- `sumSquares` is a sum of squares. -/
theorem sumSquares_eq_sum_map (a : List ℝ) :
    sumSquares a = (a.map (fun x => x * x)).sum := by
  induction a with
  | nil => simp [sumSquares, dotProduct]
  | cons x xs ih =>
    simp only [sumSquares, dotProduct, List.zipWith, List.map, List.sum_cons] at ih ⊢
    rw [← ih]

/-- The accumulated squared magnitude is nonnegative. -/
theorem sumSquares_nonneg (a : List ℝ) : 0 ≤ sumSquares a := by
  rw [sumSquares_eq_sum_map]
  refine List.sum_nonneg ?_
  intro x hx
  rcases List.mem_map.mp hx with ⟨y, _, rfl⟩
  exact mul_self_nonneg y

/-- Claim C7: for equal-length vectors `cosineSimilarity` always returns a
value (total: never NaN, never a division error), returning 0 whenever either
vector has zero magnitude; for different lengths it fails with the
dimension-mismatch error; and a vector of nonzero magnitude compared with
itself yields exactly 1 (so "approximately 1.0" holds). -/
theorem cosineSimilarity_spec (a b : List ℝ) :
    (a.length = b.length → ∃ r, cosineSimilarity a b = .ok r) ∧
    (a.length ≠ b.length → cosineSimilarity a b = .error dimMismatchMsg) ∧
    (a.length = b.length →
      Real.sqrt (sumSquares a) = 0 ∨ Real.sqrt (sumSquares b) = 0 →
      cosineSimilarity a b = .ok 0) ∧
    (sumSquares a ≠ 0 → cosineSimilarity a a = .ok 1) := by
  refine ⟨?_, ?_, ?_, ?_⟩
  · intro h
    rw [cosineSimilarity, if_neg (by simp [h])]
    by_cases hz : Real.sqrt (sumSquares a) = 0 ∨ Real.sqrt (sumSquares b) = 0
    · exact ⟨0, by rw [if_pos hz]⟩
    · exact ⟨_, by rw [if_neg hz]⟩
  · intro h
    rw [cosineSimilarity, if_pos (by simpa using h)]
  · intro h hz
    rw [cosineSimilarity, if_neg (by simp [h]), if_pos hz]
  · intro h
    have hpos : 0 < sumSquares a := lt_of_le_of_ne (sumSquares_nonneg a) (Ne.symm h)
    have hs : Real.sqrt (sumSquares a) ≠ 0 := by
      rw [← Real.sqrt_pos] at hpos
      exact ne_of_gt hpos
    rw [cosineSimilarity, if_neg (by simp), if_neg (by push_neg; exact ⟨hs, hs⟩)]
    have hm : Real.sqrt (sumSquares a) * Real.sqrt (sumSquares a) = sumSquares a :=
      Real.mul_self_sqrt (sumSquares_nonneg a)
    rw [hm]
    have hone : dotProduct a a / sumSquares a = 1 := div_self h
    rw [hone]

/-- Witness for C7 at concrete vectors. -/
theorem cosineSimilarity_spec_witness :
    cosineSimilarity [(3 : ℝ), 4] [3, 4] = .ok 1 ∧
    cosineSimilarity [(1 : ℝ)] [1, 2] = .error dimMismatchMsg ∧
    cosineSimilarity [(0 : ℝ), 0] [1, 2] = .ok 0 := by
  refine ⟨?_, ?_, ?_⟩
  · refine (cosineSimilarity_spec [(3 : ℝ), 4] [3, 4]).2.2.2 ?_
    simp [sumSquares, dotProduct]
    norm_num
  · exact (cosineSimilarity_spec [(1 : ℝ)] [1, 2]).2.1 (by simp)
  · refine (cosineSimilarity_spec [(0 : ℝ), 0] [1, 2]).2.2.1 (by simp) (Or.inl ?_)
    have : sumSquares [(0 : ℝ), 0] = 0 := by simp [sumSquares, dotProduct]
    rw [this, Real.sqrt_zero]

/-- A left fold accumulating `+ f x` is the starting value plus the sum. -/
theorem foldl_add_map {α : Type} (f : α → ℝ) (l : List α) (a : ℝ) :
    l.foldl (fun acc x => acc + f x) a = a + (l.map f).sum := by
  induction l generalizing a with
  | nil => simp
  | cons x xs ih =>
    rw [List.foldl_cons, ih, List.map_cons, List.sum_cons]
    ring

/-- Claim C2: `calculateConfidence` computes exactly the specification formula:
rank-weighted average with weights `1/(rank+1)`, times 1.2 clamped to 1, times
1.1 clamped to 1 when 3 or more sources survived, rounded to 2 decimals. -/
theorem calculateConfidence_eq_spec (sources : List DocumentSource)
    (h : sources ≠ []) :
    calculateConfidence sources
      = specConfidence (sources.map (fun s => s.relevanceScore)) := by
  have hlen : (sources.map (fun s => s.relevanceScore)).length = sources.length :=
    List.length_map _ _
  have hW : sources.enum.foldl
        (fun acc p => acc + p.2.relevanceScore * (1 / ((p.1 : ℝ) + 1))) 0
      = (sources.enum.map (fun p => p.2.relevanceScore * (1 / ((p.1 : ℝ) + 1)))).sum := by
    rw [foldl_add_map (fun p : ℕ × DocumentSource =>
      p.2.relevanceScore * (1 / ((p.1 : ℝ) + 1))) sources.enum 0, zero_add]
  have hT : sources.enum.foldl (fun acc p => acc + 1 / ((p.1 : ℝ) + 1)) 0
      = (sources.enum.map (fun p => 1 / ((p.1 : ℝ) + 1))).sum := by
    rw [foldl_add_map (fun p : ℕ × DocumentSource => 1 / ((p.1 : ℝ) + 1))
      sources.enum 0, zero_add]
  have hmap1 : (sources.map (fun s => s.relevanceScore)).enum.map
        (fun p => p.2 * (1 / ((p.1 : ℝ) + 1)))
      = sources.enum.map (fun p => p.2.relevanceScore * (1 / ((p.1 : ℝ) + 1))) := by
    rw [List.enum_map, List.map_map]
    rfl
  have hmap2 : (sources.map (fun s => s.relevanceScore)).enum.map
        (fun p => 1 / ((p.1 : ℝ) + 1))
      = sources.enum.map (fun p => 1 / ((p.1 : ℝ) + 1)) := by
    rw [List.enum_map, List.map_map]
    rfl
  have hne : ¬sources.length = 0 := by
    simpa [List.length_eq_zero] using h
  simp only [calculateConfidence, specConfidence, hlen, hmap1, hmap2, hW, hT,
    if_neg hne]

/-- Witness for C2 at a concrete one-element source list. -/
theorem calculateConfidence_eq_spec_witness :
    sources2 ≠ [] ∧
    calculateConfidence sources2
      = specConfidence (sources2.map (fun s => s.relevanceScore)) :=
  ⟨by simp [sources2], calculateConfidence_eq_spec sources2 (by simp [sources2])⟩

/-- The first call in a burst moves the loader to the canonical in-flight state. -/
theorem callLoad_init :
    callLoad initLoader = (⟨false, true, some 0, 1, 1⟩, .awaitsLoad 0) := by
  decide

/-- The in-flight state is a fixed point of `callLoad`: every later concurrent
caller awaits promise 0 and changes nothing. -/
theorem callLoad_inflight_fixed :
    callLoad ⟨false, true, some 0, 1, 1⟩ = (⟨false, true, some 0, 1, 1⟩, .awaitsLoad 0) := by
  decide

/-- A burst of calls against the in-flight state stays there, all awaiting
promise 0. -/
theorem runCalls_inflight (m : Nat) :
    runCalls m ⟨false, true, some 0, 1, 1⟩
      = (⟨false, true, some 0, 1, 1⟩, List.replicate m (.awaitsLoad 0)) := by
  induction m with
  | zero => rfl
  | succ k ih =>
    rw [runCalls]
    rw [callLoad_inflight_fixed]
    simp only [ih]
    rfl

/-- Claim C9: `n` concurrent calls to `loadOnboardingDocumentation` from the
fresh state trigger exactly one `performLoad` (`startedLoads = 1`, never two
loads in flight); every caller awaits the same shared promise 0; after the
shared load resolves successfully the state observes `isLoaded = true`; and a
call arriving after the successful load returns immediately without starting
anything. -/
theorem loadOnboarding_single_flight (n : Nat) (h : 1 ≤ n) :
    (runCalls n initLoader).1.startedLoads = 1 ∧
    (runCalls n initLoader).1.loadingPromise = some 0 ∧
    (∀ r ∈ (runCalls n initLoader).2, r = .awaitsLoad 0) ∧
    (resolveLoad (runCalls n initLoader).1 true).isLoaded = true ∧
    callLoad (resolveLoad (runCalls n initLoader).1 true)
      = (resolveLoad (runCalls n initLoader).1 true, .immediate) ∧
    (resolveLoad (runCalls n initLoader).1 true).startedLoads = 1 := by
  obtain ⟨m, rfl⟩ : ∃ m, n = m + 1 := ⟨n - 1, by omega⟩
  have hrun : runCalls (m + 1) initLoader
      = (⟨false, true, some 0, 1, 1⟩,
         .awaitsLoad 0 :: List.replicate m (.awaitsLoad 0)) := by
    rw [runCalls]
    rw [callLoad_init]
    simp only [runCalls_inflight]
  rw [hrun]
  refine ⟨rfl, rfl, ?_, rfl, rfl, rfl⟩
  intro r hr
  rcases List.mem_cons.mp hr with h1 | h1
  · exact h1
  · exact List.eq_of_mem_replicate h1

/-- Witness for C9 at `n = 3`. -/
theorem loadOnboarding_single_flight_witness :
    1 ≤ 3 ∧ (runCalls 3 initLoader).1.startedLoads = 1 ∧
    callLoad (resolveLoad (runCalls 3 initLoader).1 true)
      = (resolveLoad (runCalls 3 initLoader).1 true, .immediate) :=
  ⟨by decide, (loadOnboarding_single_flight 3 (by decide)).1,
    (loadOnboarding_single_flight 3 (by decide)).2.2.2.2.1⟩

/-- Claim C10 (amended): a failing `initialize` leaves the vector store cleared
(the prior documents are not restored), re-throws a wrapped error, and leaves
`isInitialized` at its **prior** value; a succeeding `initialize` sets it. -/
theorem initRAGService_failure (st : RAGServiceState) (e : String)
    (pds : List ProcessedDocument) :
    initRAGService st (.error e)
      = ({ isInit := st.isInit, store := [] },
         .error ("Failed to initialize RAG system: " ++ e)) ∧
    (initRAGService st (.ok pds)).1.isInit = true :=
  ⟨rfl, rfl⟩

/-- Counterexample to claim C10 as stated: for a previously initialized service
with a non-empty store, a failed re-initialize leaves `isInitialized = true`
(not `false` as claimed), while the store is indeed left empty instead of
containing the prior documents. -/
theorem initRAGService_counterexample :
    (initRAGService ⟨true, [pdoc1]⟩ (.error "embedding failed")).1.isInit = true ∧
    (initRAGService ⟨true, [pdoc1]⟩ (.error "embedding failed")).1.store = [] ∧
    ([pdoc1] : List ProcessedDocument) ≠ [] :=
  ⟨rfl, rfl, by simp⟩

/-- Counterexample to claim C6 as stated: `processDocument` does not normalize;
the single chunk of the document with content `"a  b"` carries the raw double
space, while `preprocessContent` (never invoked by `processDocument`) would
have produced `"a b"`. -/
theorem preprocess_not_applied_counterexample :
    (processDocument embed0 docC6).chunks.map (fun c => c.content) = ["a  b".data] ∧
    preprocessContentS "a  b" = "a b" ∧
    ("a  b" : String) ≠ "a b" := by
  refine ⟨by decide, by decide, by decide⟩

/-- Claim C6 (amended): `processDocument` builds chunks over the **raw**
document content (for a short document the single chunk content is exactly
`d.content`, unnormalized); the normalization described by the specification
is implemented by the separate, un-invoked `preprocessContent`, which does
normalize line endings, collapse 3+ newlines, collapse space/tab runs, and
trim (shown on the unit-test inputs of the repository). -/
theorem processDocument_raw_content (embed : List Char → List ℝ) (d : Document)
    (h : d.content.data.length ≤ chunkSize) :
    (processDocument embed d).chunks.map (fun c => c.content) = [d.content.data] ∧
    preprocessContentS "Line 1\r\nLine 2\r\nLine 3" = "Line 1\nLine 2\nLine 3" ∧
    preprocessContentS "Line 1\n\n\n\nLine 2" = "Line 1\n\nLine 2" ∧
    preprocessContentS "Word1    Word2\t\tWord3" = "Word1 Word2 Word3" ∧
    preprocessContentS "   Content with spaces   " = "Content with spaces" := by
  refine ⟨?_, by decide, by decide, by decide, by decide⟩
  simp only [processDocument, createDocumentChunksFull, if_pos h, List.map_cons,
    List.map_nil]

/-- Witness for C6 (amended) at the concrete document `docC6`. -/
theorem processDocument_raw_content_witness :
    docC6.content.data.length ≤ chunkSize ∧
    (processDocument embed0 docC6).chunks.map (fun c => c.content) = [docC6.content.data] :=
  ⟨by decide, (processDocument_raw_content embed0 docC6 (by decide)).1⟩

/-- `String.lastIndexOf` never reaches the list length. -/
theorem lastIndexOfC_le (l : List Char) (c : Char) :
    lastIndexOfC l c ≤ (l.length : Int) - 1 := by
  unfold lastIndexOfC
  cases h : l.reverse.findIdx? (fun x => x = c) with
  | none => simp only [h]; omega
  | some i => simp only [h]; omega

/-- The raw window is never longer than `chunkSize`. -/
theorem rawWindow_length_le (content : List Char) (start : Nat) :
    (rawWindow content start).length ≤ chunkSize := by
  unfold rawWindow jsSlice windowEnd
  simp only [List.length_drop, List.length_take]
  omega

/-- Helper exposing the C5 bug in general: because the guard compares the
window-relative `breakPoint` with `startIndex + 400`, no window starting at or
beyond index 400 is ever cut at a sentence boundary. -/
theorem no_boundary_cut_from_400 (content : List Char) (start : Nat)
    (h : 400 ≤ start) :
    chunkContentAt content start = rawWindow content start := by
  unfold chunkContentAt
  by_cases he : windowEnd content start < content.length
  · rw [if_pos he]
    have h1 := lastIndexOfC_le (rawWindow content start) '.'
    have h2 := lastIndexOfC_le (rawWindow content start) '\n'
    have h3 := rawWindow_length_le content start
    have hcs : chunkSize = 800 := rfl
    rw [if_neg]
    push_neg
    omega
  · rw [if_neg he]

/-- Claim C5 at the failing input `content5` (1551 characters, a period at
index 1200): the second window starts at 750 and has its last period at
window-relative index 450 — inside the last 50% of the window — yet the
produced chunk ends at the raw window edge 1550 instead of being cut at the
period (the cut would have ended the chunk at index 1201). -/
theorem chunk_boundary_cut_not_applied :
    content5.length = 1551 ∧
    lastIndexOfC (rawWindow content5 750) '.' = 450 ∧
    (400 : Int) < 450 ∧
    chunkContentAt content5 750 = rawWindow content5 750 ∧
    ((chunkLoop content5 0)[1]?).map (fun c => (c.startIndex, c.endIndex))
      = some (750, 1550) := by
  refine ⟨by decide, by decide, by decide,
    no_boundary_cut_from_400 content5 750 (by omega), ?_⟩
  rw [chunkLoop]
  rw [dif_pos (by decide : (0 : Nat) < content5.length)]
  rw [show nextStartAt content5 0 = 750 from by decide]
  rw [chunkLoop]
  rw [dif_pos (by decide : (750 : Nat) < content5.length)]
  simp only [List.getElem?_cons_succ, List.getElem?_cons_zero, Option.map_some]
  rw [show (chunkContentAt content5 750).length = 800 from by decide]
  rfl

/-- Length of a JavaScript slice. -/
theorem jsSlice_length (l : List Char) (a b : Nat) :
    (jsSlice l a b).length = min b l.length - a := by
  simp [jsSlice, List.length_drop, List.length_take]

/-- A slice from an in-range start to any later bound is nonempty. -/
theorem jsSlice_pos (l : List Char) (a b : Nat) (ha : a < l.length) (hb : a < b) :
    1 ≤ (jsSlice l a b).length := by
  rw [jsSlice_length]
  omega

/-- A slice starting at an in-range `a` ends within the list. -/
theorem jsSlice_le (l : List Char) (a b : Nat) (ha : a ≤ l.length) :
    a + (jsSlice l a b).length ≤ l.length := by
  rw [jsSlice_length]
  omega

/-- The window end lies strictly beyond `start` while `start` is in range. -/
theorem windowEnd_gt (content : List Char) (start : Nat) (h : start < content.length) :
    start < windowEnd content start := by
  have hcs : chunkSize = 800 := rfl
  unfold windowEnd
  omega

/-- Every chunk body is nonempty while `start` is in range. -/
theorem chunkContentAt_pos (content : List Char) (start : Nat)
    (h : start < content.length) : 1 ≤ (chunkContentAt content start).length := by
  unfold chunkContentAt
  by_cases he : windowEnd content start < content.length
  · rw [if_pos he]
    by_cases hb : max (lastIndexOfC (rawWindow content start) '.')
        (lastIndexOfC (rawWindow content start) '\n') > (start : Int) + 400
    · rw [if_pos hb]
      exact jsSlice_pos content start _ h (by omega)
    · rw [if_neg hb]
      exact jsSlice_pos content start _ h (windowEnd_gt content start h)
  · rw [if_neg he]
    exact jsSlice_pos content start _ h (windowEnd_gt content start h)

/-- Every chunk ends within the content while `start` is in range. -/
theorem chunkContentAt_le (content : List Char) (start : Nat)
    (h : start < content.length) :
    start + (chunkContentAt content start).length ≤ content.length := by
  unfold chunkContentAt
  by_cases he : windowEnd content start < content.length
  · rw [if_pos he]
    by_cases hb : max (lastIndexOfC (rawWindow content start) '.')
        (lastIndexOfC (rawWindow content start) '\n') > (start : Int) + 400
    · rw [if_pos hb]
      exact jsSlice_le content start _ (by omega)
    · rw [if_neg hb]
      exact jsSlice_le content start _ (by omega)
  · rw [if_neg he]
    exact jsSlice_le content start _ (by omega)

/-- The loop always advances. -/
theorem nextStartAt_gt (content : List Char) (start : Nat) :
    start + 1 ≤ nextStartAt content start := by
  have h2 : ((start + 1 : Nat) : Int) ≤
      max ((start : Int) + (chunkContentAt content start).length - (chunkOverlap : Int))
        ((start : Int) + 1) := by
    have := le_max_right
      ((start : Int) + (chunkContentAt content start).length - (chunkOverlap : Int))
      ((start : Int) + 1)
    push_cast
    omega
  calc start + 1 = ((start + 1 : Nat) : Int).toNat := by simp
    _ ≤ _ := Int.toNat_le_toNat h2

/-- The next window starts no later than the current chunk ends (no gaps). -/
theorem nextStartAt_le (content : List Char) (start : Nat)
    (h : start < content.length) :
    nextStartAt content start ≤ start + (chunkContentAt content start).length := by
  have h1 := chunkContentAt_pos content start h
  unfold nextStartAt
  rw [Int.toNat_le]
  apply max_le
  · have hov : chunkOverlap = 50 := rfl
    push_cast
    omega
  · push_cast
    omega

/-- Unfolding equation of the chunking loop while `start` is in range. -/
theorem chunkLoop_eq_cons (content : List Char) (start : Nat)
    (h : start < content.length) :
    chunkLoop content start
      = ⟨start, start + (chunkContentAt content start).length, chunkContentAt content start⟩ ::
        chunkLoop content (nextStartAt content start) := by
  rw [chunkLoop]
  rw [dif_pos h]

/-- Unfolding equation of the chunking loop when `start` is out of range. -/
theorem chunkLoop_eq_nil (content : List Char) (start : Nat)
    (h : ¬start < content.length) :
    chunkLoop content start = [] := by
  rw [chunkLoop]
  rw [dif_neg h]

/-- All spans produced by the loop satisfy `startIndex < endIndex ≤ length`. -/
theorem chunkLoop_bounds (content : List Char) :
    ∀ k start, content.length - start ≤ k →
      ∀ c ∈ chunkLoop content start,
        c.startIndex < c.endIndex ∧ c.endIndex ≤ content.length := by
  intro k
  induction k with
  | zero =>
    intro start hk c hc
    rw [chunkLoop_eq_nil content start (by omega)] at hc
    cases hc
  | succ k ih =>
    intro start hk c hc
    by_cases h : start < content.length
    · rw [chunkLoop_eq_cons content start h] at hc
      rcases List.mem_cons.mp hc with rfl | hc
      · exact ⟨by have := chunkContentAt_pos content start h; simp only; omega,
          by have := chunkContentAt_le content start h; simp only; omega⟩
      · exact ih (nextStartAt content start)
          (by have := nextStartAt_gt content start; omega) c hc
    · rw [chunkLoop_eq_nil content start h] at hc
      cases hc

/-- The loop covers every position from `start` to the end of the content. -/
theorem chunkLoop_covers (content : List Char) :
    ∀ k start p, content.length - start ≤ k → start ≤ p → p < content.length →
      ∃ c ∈ chunkLoop content start, c.startIndex ≤ p ∧ p < c.endIndex := by
  intro k
  induction k with
  | zero =>
    intro start p hk hsp hp
    omega
  | succ k ih =>
    intro start p hk hsp hp
    have h : start < content.length := by omega
    rw [chunkLoop_eq_cons content start h]
    by_cases hin : p < start + (chunkContentAt content start).length
    · exact ⟨_, List.mem_cons_self _ _, hsp, hin⟩
    · have h5 := nextStartAt_le content start h
      have h4 := nextStartAt_gt content start
      obtain ⟨c, hc, hcp⟩ := ih (nextStartAt content start) p (by omega) (by omega) hp
      exact ⟨c, List.mem_cons_of_mem _ hc, hcp⟩

/-- The loop produces non-decreasing (in fact strictly increasing) start indices. -/
theorem chunkLoop_chain (content : List Char) :
    ∀ k start, content.length - start ≤ k →
      startNondecreasing (chunkLoop content start) := by
  intro k
  induction k with
  | zero =>
    intro start hk
    rw [chunkLoop_eq_nil content start (by omega)]
    exact List.chain'_nil
  | succ k ih =>
    intro start hk
    by_cases h : start < content.length
    · rw [chunkLoop_eq_cons content start h]
      refine List.chain'_cons'.mpr ⟨?_, ih (nextStartAt content start)
        (by have := nextStartAt_gt content start; omega)⟩
      intro b hb
      by_cases h2 : nextStartAt content start < content.length
      · rw [chunkLoop_eq_cons content (nextStartAt content start) h2] at hb
        simp only [List.head?_cons, Option.mem_def, Option.some.injEq] at hb
        subst hb
        have := nextStartAt_gt content start
        simp only
        omega
      · rw [chunkLoop_eq_nil content _ h2] at hb
        simp at hb
    · rw [chunkLoop_eq_nil content start h]
      exact List.chain'_nil

/-- Claim C4: a document of length at most `chunkSize` yields exactly one chunk
spanning `[0, length]`; a longer document yields spans with
`startIndex < endIndex ≤ length`, non-decreasing start indices, and full
coverage of every content position (overlaps permitted, no gaps).  Totality of
`chunkLoop` (the start index advances by at least 1, `nextStartAt_gt`) is what
makes these statements well-defined. -/
theorem chunking_invariants (content : List Char) :
    (content.length ≤ chunkSize →
      createDocumentChunkSpans content = [⟨0, content.length, content⟩]) ∧
    (chunkSize < content.length →
      (∀ c ∈ createDocumentChunkSpans content,
        c.startIndex < c.endIndex ∧ c.endIndex ≤ content.length) ∧
      startNondecreasing (createDocumentChunkSpans content) ∧
      (∀ p < content.length, ∃ c ∈ createDocumentChunkSpans content,
        c.startIndex ≤ p ∧ p < c.endIndex)) := by
  constructor
  · intro h
    rw [createDocumentChunkSpans, if_pos h]
  · intro h
    rw [createDocumentChunkSpans, if_neg (by omega)]
    exact ⟨chunkLoop_bounds content content.length 0 (by omega),
      chunkLoop_chain content content.length 0 (by omega),
      fun p hp => chunkLoop_covers content content.length 0 p (by omega) (by omega) hp⟩

/-- Witness for C4 at concrete contents on both sides of the size threshold. -/
theorem chunking_invariants_witness :
    contentSmall.length ≤ chunkSize ∧
    createDocumentChunkSpans contentSmall = [⟨0, contentSmall.length, contentSmall⟩] ∧
    chunkSize < contentBig.length ∧
    startNondecreasing (createDocumentChunkSpans contentBig) :=
  ⟨by decide, (chunking_invariants contentSmall).1 (by decide), by decide,
    ((chunking_invariants contentBig).2 (by decide)).2.1⟩

/-- Bind of a successful `Except` computation. -/
theorem excBind_ok {α β : Type} (a : α) (f : α → Except String β) :
    (Except.ok a >>= f) = f a := rfl

/-- `mapError` of a successful `Except` computation. -/
theorem excMapError_ok {α : Type} (a : α) (f : String → String) :
    (Except.ok a : Except String α).mapError f = .ok a := rfl

/-- No result below the threshold survives the filter-and-project step. -/
theorem relevantSourcesOf_nil (sims : List SimilarityResult)
    (h : ∀ r ∈ sims, r.similarity < similarityThreshold) :
    relevantSourcesOf sims = [] := by
  unfold relevantSourcesOf
  have hfil : sims.filter (fun r => similarityThreshold ≤ r.similarity) = [] := by
    rw [List.filter_eq_nil_iff]
    intro a ha
    simpa using not_le.mpr (h a ha)
  rw [hfil]
  rfl

/-- Every surviving source carries a relevance score at or above the threshold. -/
theorem relevantSourcesOf_scores (sims : List SimilarityResult) :
    ∀ s ∈ relevantSourcesOf sims, similarityThreshold ≤ s.relevanceScore := by
  unfold relevantSourcesOf
  intro s hs
  rcases List.mem_map.mp hs with ⟨r, hr, rfl⟩
  have h1 : r ∈ sims.filter (fun r => similarityThreshold ≤ r.similarity) :=
    List.take_subset _ _ hr
  have h2 := List.of_mem_filter h1
  simpa [createDocumentSource] using h2

/-- `findSimilar` over a store whose similarities are all known. -/
theorem findSimilar_ok (store : List ProcessedDocument) (qe : List ℝ) (topK : Nat)
    (results : List SimilarityResult) (hall : allResults store qe = .ok results) :
    findSimilar store qe topK
      = .ok ((results.mergeSort (fun a b => decide (b.similarity ≤ a.similarity))).take
          topK) := by
  unfold findSimilar
  rw [hall]
  rfl

/-- Shared core of C1: in the ready state, when every stored document and chunk
similarity is strictly below the threshold, `query` returns the fixed
no-relevant-information response with no sources, confidence 0, and without
invoking the generation oracle. -/
theorem queryRAG_no_relevant (store : List ProcessedDocument)
    (embed : String → Except String (List ℝ)) (gen : String → Except String String)
    (question : String) (context : Option String) (qe : List ℝ)
    (results : List SimilarityResult)
    (hembed : embed (queryTextOf context question) = .ok qe)
    (hall : allResults store qe = .ok results)
    (hlow : ∀ r ∈ results, r.similarity < similarityThreshold) :
    queryRAG true store embed gen question context = .ok (noInfoResponse, false) := by
  unfold queryRAG
  rw [if_neg (by simp)]
  rw [hembed, excBind_ok,
    findSimilar_ok store qe (maxSources * 2) results hall, excBind_ok]
  have hnil : relevantSourcesOf
      ((results.mergeSort (fun a b => decide (b.similarity ≤ a.similarity))).take
        (maxSources * 2)) = [] := by
    refine relevantSourcesOf_nil _ ?_
    intro r hr
    exact hlow r ((List.mergeSort_perm results _).subset (List.take_subset _ _ hr))
  rw [hnil]
  rfl

/-- Claim C1: in the ready state, if no stored document or chunk embedding
reaches cosine similarity `0.3` against the query embedding, `query` returns
the fixed no-relevant-information answer with empty sources and confidence
exactly 0, and does not invoke the generation model. -/
theorem query_refusal (store : List ProcessedDocument)
    (embed : String → Except String (List ℝ)) (gen : String → Except String String)
    (question : String) (context : Option String) (qe : List ℝ)
    (results : List SimilarityResult)
    (hembed : embed (queryTextOf context question) = .ok qe)
    (hall : allResults store qe = .ok results)
    (hlow : ∀ r ∈ results, r.similarity < similarityThreshold) :
    queryRAG true store embed gen question context = .ok (noInfoResponse, false) :=
  queryRAG_no_relevant store embed gen question context qe results hembed hall hlow

/-- Cosine similarity of the sample query with the stored orthogonal vectors. -/
theorem cos_orth : cosineSimilarity [(0 : ℝ), 1] [1, 0] = .ok 0 := by
  have h1 : sumSquares [(0 : ℝ), 1] = 1 := by
    simp [sumSquares, dotProduct]
  have h2 : sumSquares [(1 : ℝ), 0] = 1 := by
    simp [sumSquares, dotProduct]
  have h3 : dotProduct [(0 : ℝ), 1] [1, 0] = 0 := by
    simp [dotProduct]
  simp [cosineSimilarity, h1, h2, h3, Real.sqrt_one]

/-- All similarity results of the sample store against the sample query. -/
theorem allResults_store1 :
    allResults store1 [0, 1]
      = .ok [⟨pdoc1, none, 0⟩, ⟨pdoc1, some chunk1, 0⟩] := by
  have hdoc : docResults [0, 1] pdoc1 = .ok [⟨pdoc1, none, 0⟩, ⟨pdoc1, some chunk1, 0⟩] := by
    unfold docResults
    have he1 : pdoc1.embedding = [1, 0] := rfl
    have he2 : chunk1.embedding = [1, 0] := rfl
    have hch : pdoc1.chunks = [chunk1] := rfl
    rw [he1, cos_orth, excBind_ok, hch, List.mapM_cons, he2]
    simp [cos_orth, List.mapM_nil]
    rfl
  unfold allResults store1
  rw [List.mapM_cons, hdoc]
  simp [List.mapM_nil]
  rfl

/-- All sample similarities are below the threshold. -/
theorem lows_store1 :
    ∀ r ∈ ([⟨pdoc1, none, 0⟩, ⟨pdoc1, some chunk1, 0⟩] : List SimilarityResult),
      r.similarity < similarityThreshold := by
  intro r hr
  have ht : similarityThreshold = 0.3 := rfl
  rcases List.mem_cons.mp hr with rfl | hr
  · rw [ht]
    norm_num
  · rcases List.mem_cons.mp hr with rfl | hr
    · rw [ht]
      norm_num
    · cases hr

/-- Witness for C1 at the concrete one-document store. -/
theorem query_refusal_witness :
    queryRAG true store1 embed1 gen1 "How do I start?" none = .ok (noInfoResponse, false) :=
  query_refusal store1 embed1 gen1 "How do I start?" none [0, 1] _ rfl
    allResults_store1 lows_store1

/-- A non-empty source list whose scores all reach the threshold yields a
strictly positive confidence: the weighted average is at least 0.3, the 1.2
boost lifts it to at least 0.36, clamping and the optional 1.1 boost keep it
there, and rounding to 2 decimals cannot take a value at or above 0.36 to 0. -/
theorem calculateConfidence_pos (sources : List DocumentSource) (h0 : sources ≠ [])
    (h : ∀ s ∈ sources, similarityThreshold ≤ s.relevanceScore) :
    0 < calculateConfidence sources := by
  have ht : similarityThreshold = 0.3 := rfl
  have hne : ¬sources.length = 0 := by
    simpa [List.length_eq_zero] using h0
  have hW : sources.enum.foldl
        (fun acc p => acc + p.2.relevanceScore * (1 / ((p.1 : ℝ) + 1))) 0
      = (sources.enum.map (fun p => p.2.relevanceScore * (1 / ((p.1 : ℝ) + 1)))).sum := by
    rw [foldl_add_map (fun p : ℕ × DocumentSource =>
      p.2.relevanceScore * (1 / ((p.1 : ℝ) + 1))) sources.enum 0, zero_add]
  have hT : sources.enum.foldl (fun acc p => acc + 1 / ((p.1 : ℝ) + 1)) 0
      = (sources.enum.map (fun p => 1 / ((p.1 : ℝ) + 1))).sum := by
    rw [foldl_add_map (fun p : ℕ × DocumentSource => 1 / ((p.1 : ℝ) + 1))
      sources.enum 0, zero_add]
  simp only [calculateConfidence, if_neg hne, hW, hT]
  set T := (sources.enum.map (fun p => 1 / ((p.1 : ℝ) + 1))).sum with hTdef
  set W := (sources.enum.map (fun p => p.2.relevanceScore * (1 / ((p.1 : ℝ) + 1)))).sum
    with hWdef
  have htpos : 0 < T := by
    rw [hTdef]
    apply List.sum_pos
    · intro x hx
      rcases List.mem_map.mp hx with ⟨p, _, rfl⟩
      positivity
    · intro hmap
      rw [List.map_eq_nil_iff] at hmap
      have := sources.enum_length
      rw [hmap] at this
      simp at this
      omega
  have hws : (0.3 : ℝ) * T ≤ W := by
    rw [hTdef, hWdef, ← List.sum_map_mul_left]
    apply List.sum_le_sum
    intro p hp
    obtain ⟨i, s⟩ := p
    have hmem := List.mem_enum hp
    have hsrc : s ∈ sources := by
      rcases hmem with ⟨hi, hs⟩
      rw [hs]
      exact List.getElem_mem hi
    have hscore : (0.3 : ℝ) ≤ s.relevanceScore := by
      rw [← ht]
      exact h s hsrc
    have hwpos : (0 : ℝ) ≤ 1 / ((i : ℝ) + 1) := by positivity
    exact mul_le_mul_of_nonneg_right hscore hwpos
  have havg : (0.3 : ℝ) ≤ W / T := (le_div_iff₀ htpos).mpr (by linarith)
  have h1 : (0.36 : ℝ) ≤ min (W / T * 1.2) 1 := le_min (by nlinarith) (by norm_num)
  have hfin : ∀ c2 : ℝ, (0.36 : ℝ) ≤ c2 →
      0 < ((round (c2 * 100) : ℤ) : ℝ) / 100 := by
    intro c2 hc2
    have hr : (36 : ℤ) ≤ round (c2 * 100) := by
      rw [round_eq]
      apply Int.le_floor.mpr
      push_cast
      linarith
    have hrr : (36 : ℝ) ≤ ((round (c2 * 100) : ℤ) : ℝ) := by exact_mod_cast hr
    have : (0 : ℝ) < ((round (c2 * 100) : ℤ) : ℝ) := by linarith
    positivity
  by_cases h3 : 3 ≤ sources.length
  · rw [if_pos h3]
    refine hfin _ (le_min ?_ (by norm_num))
    nlinarith
  · rw [if_neg h3]
    exact hfin _ h1

/-- Claim C3: every response produced by `query` has confidence 0 exactly when
its source list is empty — the no-relevant-content branch returns confidence 0
with no sources, and any surviving (threshold-passing) source set yields a
strictly positive confidence after the 1.2 boost and 2-decimal rounding. -/
theorem confidence_zero_iff_no_sources (isInit : Bool)
    (store : List ProcessedDocument) (embed : String → Except String (List ℝ))
    (gen : String → Except String String) (question : String)
    (context : Option String) (resp : RAGResponse) (genCalled : Bool)
    (h : queryRAG isInit store embed gen question context = .ok (resp, genCalled)) :
    resp.confidence = 0 ↔ resp.sources = [] := by
  by_cases hinit : isInit = false
  · rw [queryRAG, if_pos hinit] at h
    cases h
  · rw [queryRAG, if_neg hinit] at h
    cases hembed : embed (queryTextOf context question) with
    | error e =>
      rw [hembed] at h
      cases h
    | ok qe =>
      rw [hembed, excBind_ok] at h
      cases hfs : findSimilar store qe (maxSources * 2) with
      | error e =>
        rw [hfs] at h
        cases h
      | ok sims =>
        rw [hfs, excBind_ok] at h
        by_cases hemp : (relevantSourcesOf sims).isEmpty
        · rw [if_pos hemp] at h
          cases h
          constructor
          · intro _
            rfl
          · intro _
            rfl
        · rw [if_neg hemp] at h
          cases h
          have hnil : relevantSourcesOf sims ≠ [] := by
            intro hx
            rw [hx] at hemp
            simp at hemp
          have hpos : 0 < calculateConfidence (relevantSourcesOf sims) :=
            calculateConfidence_pos _ hnil (relevantSourcesOf_scores sims)
          constructor
          · intro hc
            exact absurd hc (by simpa using ne_of_gt hpos)
          · intro hs
            exact absurd hs hnil

/-- Witness for C3 at the concrete one-document store (the refusal branch). -/
theorem confidence_zero_iff_no_sources_witness :
    noInfoResponse.confidence = 0 ↔ noInfoResponse.sources = [] :=
  confidence_zero_iff_no_sources true store1 embed1 gen1 "How do I start?" none
    noInfoResponse false
    (queryRAG_no_relevant store1 embed1 gen1 "How do I start?" none [0, 1] _ rfl
      allResults_store1 lows_store1)

/-- The blank-line normalizer maps the empty list to itself at any fuel. -/
theorem collapseNlWsNlF_nil (fuel : Nat) : collapseNlWsNlF fuel [] = [] := by
  cases fuel with
  | zero => rfl
  | succ k => rfl

/-- Characters produced by the blank-line normalizer come from the input or
are newlines. -/
theorem collapseNlWsNlF_chars (fuel : Nat) :
    ∀ l c, c ∈ collapseNlWsNlF fuel l → c ∈ l ∨ c = '\n' := by
  induction fuel with
  | zero =>
    intro l c hc
    exact Or.inl hc
  | succ k ih =>
    intro l c hc
    cases l with
    | nil => cases hc
    | cons a rest =>
      rw [collapseNlWsNlF] at hc
      by_cases ha : a = '\n'
      · rw [if_pos ha] at hc
        by_cases hw : '\n' ∈ rest.takeWhile isJsSpace
        · rw [if_pos hw] at hc
          rcases List.mem_cons.mp hc with rfl | hc
          · exact Or.inr rfl
          rcases List.mem_cons.mp hc with rfl | hc
          · exact Or.inr rfl
          rcases ih _ c hc with h1 | h1
          · exact Or.inl (List.mem_cons_of_mem a (List.drop_subset _ _ h1))
          · exact Or.inr h1
        · rw [if_neg hw] at hc
          rcases List.mem_cons.mp hc with rfl | hc
          · exact Or.inl (List.mem_cons_self _ _)
          rcases ih _ c hc with h1 | h1
          · exact Or.inl (List.mem_cons_of_mem a h1)
          · exact Or.inr h1
      · rw [if_neg ha] at hc
        rcases List.mem_cons.mp hc with rfl | hc
        · exact Or.inl (List.mem_cons_self _ _)
        rcases ih _ c hc with h1 | h1
        · exact Or.inl (List.mem_cons_of_mem a h1)
        · exact Or.inr h1

/-- The whitespace run following the opening newline never swallows a trailing
non-whitespace character. -/
theorem takeWhile_ws_lt (rest : List Char) (p : Char) (hp : isJsSpace p = false) :
    ((rest ++ [p]).takeWhile isJsSpace).length ≤ rest.length := by
  by_contra hlen
  push_neg at hlen
  have hpre := List.takeWhile_prefix (l := rest ++ [p]) isJsSpace
  have hle : ((rest ++ [p]).takeWhile isJsSpace).length ≤ rest.length + 1 := by
    have := hpre.length_le
    simpa using this
  have heq : (rest ++ [p]).takeWhile isJsSpace = rest ++ [p] :=
    hpre.eq_of_length
      (by simp only [List.length_append, List.length_cons, List.length_nil]; omega)
  have hmem : p ∈ (rest ++ [p]).takeWhile isJsSpace := by
    rw [heq]
    exact List.mem_append_right _ (List.mem_cons_self _ _)
  have := List.mem_takeWhile_imp hmem
  rw [hp] at this
  cases this

/-- The cut index stays inside the whitespace run. -/
theorem nlCutIndex_lt (rest : List Char) (hne : rest.takeWhile isJsSpace ≠ []) :
    nlCutIndex rest < (rest.takeWhile isJsSpace).length := by
  have hpos : 1 ≤ (rest.takeWhile isJsSpace).length := List.length_pos.mpr hne
  unfold nlCutIndex
  omega

/-- The blank-line normalizer preserves a trailing non-whitespace character. -/
theorem collapseNlWsNlF_ends (fuel : Nat) :
    ∀ l₁ p, isJsSpace p = false →
      ∃ l₂, collapseNlWsNlF fuel (l₁ ++ [p]) = l₂ ++ [p] := by
  induction fuel with
  | zero =>
    intro l₁ p _
    exact ⟨l₁, rfl⟩
  | succ k ih =>
    intro l₁ p hp
    cases l₁ with
    | nil =>
      have hpn : ¬p = '\n' := by
        intro h
        rw [h] at hp
        simp [isJsSpace] at hp
      refine ⟨[], ?_⟩
      show collapseNlWsNlF (k + 1) (p :: []) = [] ++ [p]
      rw [collapseNlWsNlF, if_neg hpn, collapseNlWsNlF_nil]
      rfl
    | cons a rest =>
      show ∃ l₂, collapseNlWsNlF (k + 1) (a :: (rest ++ [p])) = l₂ ++ [p]
      rw [collapseNlWsNlF]
      by_cases ha : a = '\n'
      · rw [if_pos ha]
        by_cases hw : '\n' ∈ (rest ++ [p]).takeWhile isJsSpace
        · rw [if_pos hw]
          have hwsne : (rest ++ [p]).takeWhile isJsSpace ≠ [] := by
            intro h
            rw [h] at hw
            cases hw
          have hjlt : nlCutIndex (rest ++ [p]) + 1 ≤ rest.length := by
            have h1 := nlCutIndex_lt (rest ++ [p]) hwsne
            have h2 := takeWhile_ws_lt rest p hp
            omega
          have hdrop : (rest ++ [p]).drop (nlCutIndex (rest ++ [p]) + 1)
              = rest.drop (nlCutIndex (rest ++ [p]) + 1) ++ [p] :=
            List.drop_append_of_le_length hjlt
          rw [hdrop]
          obtain ⟨l₂, hl₂⟩ := ih (rest.drop (nlCutIndex (rest ++ [p]) + 1)) p hp
          rw [hl₂]
          exact ⟨'\n' :: '\n' :: l₂, rfl⟩
        · rw [if_neg hw]
          obtain ⟨l₂, hl₂⟩ := ih rest p hp
          rw [hl₂]
          exact ⟨a :: l₂, rfl⟩
      · rw [if_neg ha]
        obtain ⟨l₂, hl₂⟩ := ih rest p hp
        rw [hl₂]
        exact ⟨a :: l₂, rfl⟩

/-- Characters produced by the double-space collapse come from the input. -/
theorem collapseDoubleSpaces_chars :
    ∀ n l, l.length ≤ n → ∀ c, c ∈ collapseDoubleSpaces l → c ∈ l := by
  intro n
  induction n with
  | zero =>
    intro l hl c hc
    have : l = [] := List.length_eq_zero.mp (by omega)
    subst this
    cases hc
  | succ k ih =>
    intro l hl c hc
    match l, hl, hc with
    | [], _, hc => cases hc
    | [x], _, hc => simpa [collapseDoubleSpaces] using hc
    | a :: b :: rest, hl, hc =>
      simp only [collapseDoubleSpaces] at hc
      by_cases hab : a = ' ' ∧ b = ' '
      · rw [if_pos hab] at hc
        exact List.mem_cons_of_mem a
          (ih (b :: rest) (by simpa using Nat.le_of_succ_le_succ hl) c hc)
      · rw [if_neg hab] at hc
        rcases List.mem_cons.mp hc with rfl | hc
        · exact List.mem_cons_self _ _
        · exact List.mem_cons_of_mem a
            (ih (b :: rest) (by simpa using Nat.le_of_succ_le_succ hl) c hc)

/-- The double-space collapse preserves a trailing non-space character. -/
theorem collapseDoubleSpaces_ends :
    ∀ n l₁ p, l₁.length ≤ n → p ≠ ' ' →
      ∃ l₂, collapseDoubleSpaces (l₁ ++ [p]) = l₂ ++ [p] := by
  intro n
  induction n with
  | zero =>
    intro l₁ p hl hp
    have : l₁ = [] := List.length_eq_zero.mp (by omega)
    subst this
    exact ⟨[], rfl⟩
  | succ k ih =>
    intro l₁ p hl hp
    match l₁, hl with
    | [], _ => exact ⟨[], rfl⟩
    | [a], _ =>
      refine ⟨[a], ?_⟩
      show collapseDoubleSpaces (a :: [p]) = [a] ++ [p]
      simp only [collapseDoubleSpaces]
      rw [if_neg (by
        intro hab
        exact hp hab.2)]
      rfl
    | a :: b :: rest, hl =>
      show ∃ l₂, collapseDoubleSpaces (a :: ((b :: rest) ++ [p])) = l₂ ++ [p]
      simp only [collapseDoubleSpaces]
      by_cases hab : a = ' ' ∧ b = ' '
      · rw [if_pos hab]
        exact ih (b :: rest) p (by simpa using Nat.le_of_succ_le_succ hl) hp
      · rw [if_neg hab]
        obtain ⟨l₂, hl₂⟩ := ih (b :: rest) p (by simpa using Nat.le_of_succ_le_succ hl) hp
        refine ⟨a :: l₂, ?_⟩
        show a :: collapseDoubleSpaces ((b :: rest) ++ [p]) = (a :: l₂) ++ [p]
        rw [hl₂]
        rfl

/-- The final character strip removes every `*`, `_`, `#` and backtick. -/
theorem stripMdChars_chars (l : List Char) :
    ∀ c ∈ stripMdChars l, ¬(c = '*' ∨ c = '_' ∨ c = '#' ∨ c = btick) := by
  intro c hc
  have := List.of_mem_filter hc
  simpa using this

/-- The final character strip preserves a trailing terminal-punctuation
character. -/
theorem stripMdChars_ends (l₁ : List Char) (p : Char)
    (hp : p = '.' ∨ p = '!' ∨ p = '?') :
    ∃ l₂, stripMdChars (l₁ ++ [p]) = l₂ ++ [p] := by
  refine ⟨stripMdChars l₁, ?_⟩
  unfold stripMdChars
  rw [List.filter_append]
  congr 1
  rcases hp with rfl | rfl | rfl <;> decide

/-- The punctuation fix-up yields the empty list or a list ending in `.`, `!`
or `?`. -/
theorem ensurePunct_cases (l : List Char) :
    ensurePunct l = [] ∨
      ∃ l₂ p, ensurePunct l = l₂ ++ [p] ∧ (p = '.' ∨ p = '!' ∨ p = '?') := by
  cases hl : l.getLast? with
  | none =>
    left
    have hnil : l = [] := List.getLast?_eq_none_iff.mp hl
    subst hnil
    rfl
  | some c =>
    right
    obtain ⟨l₂, rfl⟩ := List.getLast?_eq_some_iff.mp hl
    have he : ensurePunct (l₂ ++ [c])
        = if c = '.' ∨ c = '!' ∨ c = '?' then l₂ ++ [c] else (l₂ ++ [c]) ++ ['.'] := by
      unfold ensurePunct
      rw [List.getLast?_concat]
    by_cases hc : c = '.' ∨ c = '!' ∨ c = '?'
    · exact ⟨l₂, c, by rw [he, if_pos hc], hc⟩
    · exact ⟨l₂ ++ [c], '.', by rw [he, if_neg hc], Or.inl rfl⟩

/-- The tail of the formatting chain guarantees plain text: no `*`, `_`, `#`
or backtick survives, and a non-empty result ends in terminal punctuation. -/
theorem formatFinal_guarantees (x : List Char) :
    (∀ c ∈ formatFinal x, ¬(c = '*' ∨ c = '_' ∨ c = '#' ∨ c = btick)) ∧
    (formatFinal x ≠ [] →
      ∃ p, (formatFinal x).getLast? = some p ∧ (p = '.' ∨ p = '!' ∨ p = '?')) := by
  simp only [formatFinal]
  constructor
  · intro c hc
    rcases collapseNlWsNlF_chars _ _ c hc with h1 | rfl
    · exact stripMdChars_chars (ensurePunct x) c
        (collapseDoubleSpaces_chars
          (stripMdChars (ensurePunct x)).length _ le_rfl c h1)
    · decide
  · intro hne
    rcases ensurePunct_cases x with h0 | ⟨l₂, p, hep, hp⟩
    · rw [h0] at hne
      have : stripMdChars ([] : List Char) = [] := rfl
      rw [this] at hne
      have : collapseDoubleSpaces ([] : List Char) = [] := rfl
      rw [this] at hne
      rw [collapseNlWsNlF_nil] at hne
      exact absurd rfl hne
    · obtain ⟨l₃, h3⟩ := stripMdChars_ends l₂ p hp
      have hpns : p ≠ ' ' := by
        rcases hp with rfl | rfl | rfl <;> decide
      obtain ⟨l₄, h4⟩ := collapseDoubleSpaces_ends l₃.length l₃ p le_rfl hpns
      have hpnw : isJsSpace p = false := by
        rcases hp with rfl | rfl | rfl <;> decide
      obtain ⟨l₅, h5⟩ := collapseNlWsNlF_ends ((l₄ ++ [p]).length + 1) l₄ p hpnw
      rw [hep, h3, h4, h5]
      exact ⟨p, List.getLast?_concat _, hp⟩

/-- Claim C8 (amended): for **every** raw model output, the formatted answer
contains none of the characters `*`, `#`, `` ` `` (nor `_`) — the final
character-level strip guarantees this — and every non-empty formatted answer
ends in `.`, `!` or `?`.  (The further claim that no markdown **link syntax**
survives is refuted by `markdown_link_counterexample`: the final character
strip can create a link pattern out of fragments that the link regex did not
match.) -/
theorem formatted_plaintext (raw : String) :
    (∀ c ∈ formatResponseForFrontend raw.data, c ≠ '*' ∧ c ≠ '#' ∧ c ≠ btick) ∧
    (formatResponseForFrontend raw.data ≠ [] →
      ∃ p, (formatResponseForFrontend raw.data).getLast? = some p ∧
        (p = '.' ∨ p = '!' ∨ p = '?')) := by
  have h := formatFinal_guarantees (formatChain1 raw.data)
  constructor
  · intro c hc
    have h1 := h.1 c hc
    push_neg at h1
    exact ⟨h1.1, h1.2.2.1, h1.2.2.2⟩
  · exact h.2

/-- Witness for C8 (amended) at a concrete bold-markdown input. -/
theorem formatted_plaintext_witness :
    formatResponseForFrontend "**hello**".data ≠ [] ∧
    (∃ p, (formatResponseForFrontend "**hello**".data).getLast? = some p ∧
      (p = '.' ∨ p = '!' ∨ p = '?')) :=
  ⟨by decide, (formatted_plaintext "**hello**").2 (by decide)⟩

/-- Counterexample to claim C8 as stated: the input contains real markdown
(`**b**`), yet the formatted output `"b [a](u)."` contains markdown link
syntax — the final `[*_#`-and-backtick strip turned `[a]#(u)` into `[a](u)`. -/
theorem markdown_link_counterexample :
    ("**b**".data <:+: rawC8.data) ∧
    formatResponseForFrontendS rawC8 = "b [a](u)." ∧
    containsMdLink (formatResponseForFrontend rawC8.data) = true := by
  refine ⟨by decide, by decide, by decide⟩
